import Mathlib

/-!
Verification development for `video-folder-cleanup` (`main.go`).

The program walks a three-level directory hierarchy
(`library/studio/title/*`), classifies files and folders, and collects
four result sequences: Orphaned Folders, Orphaned Files, Empty Folders
and Structure Warnings.

Embedding conventions:
* File and directory names are `List Char`; Go's string helpers
  (`strings.ToLower`, `strings.TrimSuffix`, `strings.HasPrefix`,
  `strings.HasSuffix`, `filepath.Ext`) are reimplemented on `List Char`.
  `strings.ToLower` is modelled as ASCII lowering (the spec notes that
  locale-independent ASCII lowercase is sufficient).
* A filesystem is a function `Path → Except Err (List DirEntry)`:
  `.ok entries` models a directory whose read (`os.ReadDir`) succeeds,
  `.error e` models a read failure (or a path that is not a readable
  directory). `filepath.Join dir name` is `dir ++ [name]`.
* Each classification appended to the shared `CleanupResult` is an
  `Emission` (constructor = which of the four sequences, plus the path
  the entry references; structure warnings carry the message kind and,
  for read failures, the underlying error). The Go code formats warnings
  as strings embedding the path and error; the `Emission` form keeps the
  same information structurally.
-/

namespace VideoCleanup

abbrev Name := List Char

abbrev Path := List Name

abbrev Err := List Char

/-- One entry returned by `os.ReadDir`: a name and whether it is a
directory. -/
structure DirEntry where
  name : Name
  isDir : Bool
deriving DecidableEq, Repr

/-- A filesystem: maps a path to the outcome of reading it as a
directory. -/
abbrev FS := Path → Except Err (List DirEntry)

/-- `strings.ToLower`, restricted to ASCII case mapping. -/
def toLower (s : Name) : Name := s.map Char.toLower

/-- Helper for `filepath.Ext`: the suffix of the name starting at its
last dot, if any. -/
def extAux : List Char → Option (List Char)
  | [] => none
  | c :: cs =>
    match extAux cs with
    | some e => some e
    | none => if c = '.' then some (c :: cs) else none

/-- `filepath.Ext`: the suffix beginning at the final dot, empty if the
name has no dot. -/
def ext (s : Name) : Name := (extAux s).getD []

/-- `strings.TrimSuffix`: removes the trailing suffix if present,
otherwise returns the string unchanged. -/
def trimSuffix (s suf : Name) : Name :=
  if suf.isSuffixOf s then s.take (s.length - suf.length) else s

/-- The fixed video-extension set of `main.go` (`videoExtensions`). -/
def videoExtensions : List Name :=
  [".mkv".data, ".mp4".data, ".avi".data, ".m4v".data]

/-- `videoExtensions[strings.ToLower(filepath.Ext(name))]` in the Go
code: is this file name a video file? -/
def isVideoFile (name : Name) : Bool :=
  videoExtensions.contains (toLower (ext name))

/-- The metadata-subdirectory suffix list of `main.go`
(`metadataSubdirSuffixes`). -/
def metadataSubdirSuffixes : List Name := [".trickplay".data]

/-- `isMetadataSubdir` from `main.go`: the lowercased name ends with a
recognized metadata suffix. -/
def isMetadataSubdir (name : Name) : Bool :=
  metadataSubdirSuffixes.any (fun suffix => suffix.isSuffixOf (toLower name))

/-- The kind of a structure warning, mirroring the distinct format
strings of `main.go`; read-failure kinds carry the underlying error. -/
inductive WarnKind where
  | videoAtWrongLevel (level : Name)
  | metadataAtWrongLevel (level : Name)
  | cannotReadStudioDir (e : Err)
  | cannotReadTitleDir (e : Err)
  | unexpectedSubdir
deriving DecidableEq, Repr

/-- One append to the shared `CleanupResult`: which sequence it goes to
and the path the entry references. -/
inductive Emission where
  | orphanedFolder (path : Path)
  | orphanedFile (path : Path)
  | emptyFolder (path : Path)
  | warning (kind : WarnKind) (path : Path)
deriving DecidableEq, Repr

/-- The four sequences of `CleanupResult`, as categories. -/
inductive Category where
  | orphanedFolders
  | orphanedFiles
  | emptyFolders
  | structureWarnings
deriving DecidableEq, Repr

/-- Which of the four `CleanupResult` sequences an emission is appended
to. -/
def Emission.cat : Emission → Category
  | .orphanedFolder _ => .orphanedFolders
  | .orphanedFile _ => .orphanedFiles
  | .emptyFolder _ => .emptyFolders
  | .warning _ _ => .structureWarnings

/-- The path an emission references. -/
def Emission.path : Emission → Path
  | .orphanedFolder p => p
  | .orphanedFile p => p
  | .emptyFolder p => p
  | .warning _ p => p

/-- The non-directory entry names of a directory listing, in order
(first pass of `checkDirectChildren`). -/
def fileNamesOf (entries : List DirEntry) : List Name :=
  (entries.filter (fun e => !e.isDir)).map DirEntry.name

/-- The lowercased basenames (extension stripped) of the video files in
a directory listing (the `videoBasenames` map of
`checkDirectChildren`). -/
def videoBasenamesOf (entries : List DirEntry) : List Name :=
  (fileNamesOf entries).filter isVideoFile
    |>.map (fun n => toLower (trimSuffix n (ext n)))

/-- Classification of one file by the second pass of
`checkDirectChildren`: each file yields exactly one emission.
Note the code computes the non-video basename as
`strings.TrimSuffix(filename, strings.ToLower(filepath.Ext(filename)))`:
the trimmed suffix is the LOWERCASED extension. -/
def classifyOffLevel (videoBasenames : List Name) (level : Name)
    (dir : Path) (name : Name) : Emission :=
  if isVideoFile name then
    .warning (.videoAtWrongLevel level) (dir ++ [name])
  else
    if videoBasenames.any
        (fun videoBase =>
          videoBase.isPrefixOf (toLower (trimSuffix name (toLower (ext name))))) then
      .warning (.metadataAtWrongLevel level) (dir ++ [name])
    else
      .orphanedFile (dir ++ [name])

/-- `checkDirectChildren` from `main.go`: classify the files found
directly inside a library-root or studio directory. A directory-read
failure emits nothing. -/
def checkDirectChildren (fs : FS) (dirPath : Path) (level : Name) :
    List Emission :=
  match fs dirPath with
  | .error _ => []
  | .ok entries =>
    (fileNamesOf entries).map
      (classifyOffLevel (videoBasenamesOf entries) level dirPath)

/-- Does a directory listing contain a video file (the `hasVideoFile`
flag of `processTitleFolder`)? -/
def hasVideoFile (entries : List DirEntry) : Bool :=
  entries.any (fun e => !e.isDir && isVideoFile e.name)

/-- `processTitleFolder` from `main.go`: classify one title folder. -/
def processTitleFolder (fs : FS) (titlePath : Path) : List Emission :=
  match fs titlePath with
  | .error e => [.warning (.cannotReadTitleDir e) titlePath]
  | .ok entries =>
    if entries.length = 0 then
      [.emptyFolder titlePath]
    else
      (entries.filter (fun e => e.isDir && !isMetadataSubdir e.name)).map
          (fun e => Emission.warning .unexpectedSubdir (titlePath ++ [e.name]))
        ++
        (if !hasVideoFile entries && entries.length > 0 then
          [.orphanedFolder titlePath]
        else [])

/-- `processStudio` from `main.go`: off-level check, then every
subdirectory is processed as a title folder; a read failure emits one
warning and stops this subtree. -/
def processStudio (fs : FS) (studioPath : Path) : List Emission :=
  checkDirectChildren fs studioPath "studio".data ++
    match fs studioPath with
    | .error e => [.warning (.cannotReadStudioDir e) studioPath]
    | .ok entries =>
      (entries.filter DirEntry.isDir).flatMap
        (fun e => processTitleFolder fs (studioPath ++ [e.name]))

/-- `isDirEmpty` from `main.go`: true only when the read succeeds with
zero entries (the error case yields `false`). -/
def isDirEmpty (fs : FS) (dirPath : Path) : Bool :=
  match fs dirPath with
  | .error _ => false
  | .ok entries => entries.length = 0

/-- The studio folder paths collected by `scanLibrary` (subdirectories
of the library root). -/
def studioDirs (fs : FS) (libraryPath : Path) : List Path :=
  match fs libraryPath with
  | .error _ => []
  | .ok entries =>
    (entries.filter DirEntry.isDir).map (fun e => libraryPath ++ [e.name])

/-- The emissions of the off-level check at the library root. -/
def libEmissions (fs : FS) (libraryPath : Path) : List Emission :=
  checkDirectChildren fs libraryPath "library".data

/-- All emissions produced by processing every studio folder (what the
worker pool collectively appends, in studio order). -/
def workerJoin (fs : FS) (libraryPath : Path) : List Emission :=
  (studioDirs fs libraryPath).flatMap (processStudio fs)

/-- The second pass of `scanLibrary`: after all workers join, each
studio folder that is empty is emitted as an Empty Folder. -/
def emptyPass (fs : FS) (libraryPath : Path) : List Emission :=
  (studioDirs fs libraryPath).flatMap
    (fun studioPath =>
      if isDirEmpty fs studioPath then [.emptyFolder studioPath] else [])

/-- The possible overall emission sequences of `scanLibrary` with
`numWorkers` workers. The library-level check runs first; then the
worker pool processes the studio queue — each append is atomic under
the result mutex, so the middle segment is an interleaving of the
per-studio emission sequences, which we over-approximate as any
permutation of their concatenation (with zero workers nothing drains
the queue, so the middle segment is empty); finally, after
`wg.Wait()`, the empty-studio pass appends its entries. A root whose
validation or read fails contributes nothing (every segment is then
empty). -/
def scanOutcome (fs : FS) (libraryPath : Path) (numWorkers : Nat)
    (es : List Emission) : Prop :=
  ∃ mid : List Emission,
    (match numWorkers with
     | 0 => mid = []
     | _ + 1 => mid.Perm (workerJoin fs libraryPath)) ∧
    es = libEmissions fs libraryPath ++ mid ++ emptyPass fs libraryPath

/-- The deterministic reference run of `scanLibrary` (studios processed
sequentially in directory order); one possible outcome for any positive
worker count. -/
def scanLibrary (fs : FS) (libraryPath : Path) : List Emission :=
  libEmissions fs libraryPath ++ workerJoin fs libraryPath
    ++ emptyPass fs libraryPath

/-! ### Helper lemmas -/

lemma classifyOffLevel_path (vb : List Name) (lvl : Name) (d : Path)
    (nm : Name) : (classifyOffLevel vb lvl d nm).path = d ++ [nm] := by
  unfold classifyOffLevel
  split
  · rfl
  · split <;> rfl

lemma classifyOffLevel_cat (vb : List Name) (lvl : Name) (d : Path)
    (nm : Name) :
    (classifyOffLevel vb lvl d nm).cat = Category.structureWarnings ∨
      (classifyOffLevel vb lvl d nm).cat = Category.orphanedFiles := by
  unfold classifyOffLevel
  split
  · exact Or.inl rfl
  · split
    · exact Or.inl rfl
    · exact Or.inr rfl

lemma count_map_warning_eq_zero {α : Type} (l : List α) (k : α → WarnKind)
    (g : α → Path) (e : Emission)
    (he : e.cat ≠ Category.structureWarnings) :
    (l.map (fun a => Emission.warning (k a) (g a))).count e = 0 := by
  rw [List.count_eq_zero]
  intro hmem
  rcases List.mem_map.mp hmem with ⟨a, -, ha⟩
  apply he
  rw [← ha]
  rfl

/-- With duplicate-free entry names, an entry is determined by its
name. -/
lemma entry_eq_of_name_eq {entries : List DirEntry}
    (hnd : (entries.map DirEntry.name).Nodup) {a b : DirEntry}
    (ha : a ∈ entries) (hb : b ∈ entries) (h : a.name = b.name) :
    a = b :=
  List.inj_on_of_nodup_map hnd ha hb h

/-- The match condition tested by `checkDirectChildren` on a non-video
file, in terms of the directory entries: some video file's lowercased
stripped basename is a boolean prefix of the candidate string. -/
lemma videoBasenames_any_iff (entries : List DirEntry) (s : Name) :
    ((videoBasenamesOf entries).any (fun vb => vb.isPrefixOf s)) = true ↔
      ∃ v ∈ entries, v.isDir = false ∧ isVideoFile v.name = true ∧
        (toLower (trimSuffix v.name (ext v.name))).isPrefixOf s = true := by
  simp only [videoBasenamesOf, fileNamesOf, List.any_eq_true, List.mem_map,
    List.mem_filter, Bool.not_eq_eq_eq_not, Bool.not_true]
  constructor
  · rintro ⟨vb, ⟨nm, ⟨⟨v, ⟨hv, hvd⟩, rfl⟩, hvid⟩, rfl⟩, hpre⟩
    exact ⟨v, hv, hvd, hvid, hpre⟩
  · rintro ⟨v, hv, hvd, hvid, hpre⟩
    exact ⟨toLower (trimSuffix v.name (ext v.name)),
      ⟨v.name, ⟨⟨v, ⟨hv, hvd⟩, rfl⟩, hvid⟩, rfl⟩, hpre⟩

/-! ### Claim C1: title-folder trichotomy -/

/-- **C1.** For every title folder whose directory read succeeds,
exactly one of three outcomes occurs: zero entries give exactly one
Empty Folder entry and no Orphaned Folder entry for its path; at least
one entry but no video file gives exactly one Orphaned Folder entry
for its path; a present video file gives neither an Empty Folder nor an
Orphaned Folder entry for its path. -/
theorem titleFolder_trichotomy (fs : FS) (p : Path)
    (entries : List DirEntry) (h : fs p = Except.ok entries) :
    (entries = [] →
      (processTitleFolder fs p).count (Emission.emptyFolder p) = 1 ∧
      (processTitleFolder fs p).count (Emission.orphanedFolder p) = 0) ∧
    (entries ≠ [] → hasVideoFile entries = false →
      (processTitleFolder fs p).count (Emission.orphanedFolder p) = 1 ∧
      (processTitleFolder fs p).count (Emission.emptyFolder p) = 0) ∧
    (hasVideoFile entries = true →
      (processTitleFolder fs p).count (Emission.orphanedFolder p) = 0 ∧
      (processTitleFolder fs p).count (Emission.emptyFolder p) = 0) := by
  refine ⟨?_, ?_, ?_⟩
  · intro he
    subst he
    simp [processTitleFolder, h, List.count_cons, List.count_nil]
  · intro hne hnv
    have hlen : ¬ entries.length = 0 := by
      simpa [List.length_eq_zero] using hne
    have hlen' : entries.length > 0 := Nat.pos_of_ne_zero hlen
    simp only [processTitleFolder, h, if_neg hlen, hnv, Bool.not_false,
      decide_eq_true hlen', Bool.and_self, if_pos trivial, if_true]
    rw [List.count_append, List.count_append]
    rw [count_map_warning_eq_zero _ _ _ _ (by intro hc; cases hc),
      count_map_warning_eq_zero _ _ _ _ (by intro hc; cases hc)]
    simp [List.count_cons, List.count_nil]
  · intro hv
    have hne : entries ≠ [] := by
      intro he
      rw [he] at hv
      cases hv
    have hlen : ¬ entries.length = 0 := by
      simpa [List.length_eq_zero] using hne
    simp only [processTitleFolder, h, if_neg hlen, hv, Bool.not_true,
      Bool.false_and, if_false]
    rw [List.count_append, List.count_append]
    rw [count_map_warning_eq_zero _ _ _ _ (by intro hc; cases hc),
      count_map_warning_eq_zero _ _ _ _ (by intro hc; cases hc)]
    simp

/-- A small filesystem with an empty, an orphaned and a valid title
folder, used to instantiate the title-folder theorems. -/
def fsTitleW : FS := fun p =>
  if p = ["empty".data] then .ok []
  else if p = ["orphan".data] then .ok [⟨"movie.nfo".data, false⟩]
  else if p = ["valid".data] then .ok [⟨"movie.mkv".data, false⟩]
  else .error "e".data

/-- Witness for C1 at concrete title folders. -/
theorem titleFolder_trichotomy_witness :
    (processTitleFolder fsTitleW ["empty".data]).count
        (Emission.emptyFolder ["empty".data]) = 1 ∧
    (processTitleFolder fsTitleW ["orphan".data]).count
        (Emission.orphanedFolder ["orphan".data]) = 1 ∧
    (processTitleFolder fsTitleW ["valid".data]).count
        (Emission.orphanedFolder ["valid".data]) = 0 :=
  ⟨((titleFolder_trichotomy fsTitleW ["empty".data] [] rfl).1 rfl).1,
   ((titleFolder_trichotomy fsTitleW ["orphan".data] _ rfl).2.1
      (by decide) (by decide)).1,
   ((titleFolder_trichotomy fsTitleW ["valid".data] _ rfl).2.2
      (by decide)).1⟩

/-! ### Claim C9: directory-read failures -/

/-- **C9.** A read failure at the title or studio level appends exactly
one Structure Warning referencing the failing path and the underlying
error, and nothing else is emitted for that subtree; a read failure
inside the off-level check emits nothing at all. -/
theorem readFailure_reporting (fs : FS) :
    (∀ p e, fs p = Except.error e →
      processTitleFolder fs p =
        [Emission.warning (WarnKind.cannotReadTitleDir e) p]) ∧
    (∀ p e, fs p = Except.error e →
      processStudio fs p =
        [Emission.warning (WarnKind.cannotReadStudioDir e) p]) ∧
    (∀ p lvl e, fs p = Except.error e →
      checkDirectChildren fs p lvl = []) := by
  refine ⟨?_, ?_, ?_⟩
  · intro p e h
    simp [processTitleFolder, h]
  · intro p e h
    simp [processStudio, checkDirectChildren, h]
  · intro p lvl e h
    simp [checkDirectChildren, h]

/-- A filesystem on which every read fails. -/
def fsErrW : FS := fun _ => .error "boom".data

/-- Witness for C9 at a concrete failing path. -/
theorem readFailure_reporting_witness :
    processTitleFolder fsErrW ["t".data] =
      [Emission.warning (WarnKind.cannotReadTitleDir "boom".data)
        ["t".data]] ∧
    processStudio fsErrW ["s".data] =
      [Emission.warning (WarnKind.cannotReadStudioDir "boom".data)
        ["s".data]] ∧
    checkDirectChildren fsErrW ["d".data] "library".data = [] :=
  ⟨(readFailure_reporting fsErrW).1 ["t".data] "boom".data rfl,
   (readFailure_reporting fsErrW).2.1 ["s".data] "boom".data rfl,
   (readFailure_reporting fsErrW).2.2 ["d".data] "library".data
     "boom".data rfl⟩

/-! ### Claim C4: loose prefix matching at the off-level check -/

/-- A directory holding the off-level files `movie2.nfo` and
`movie.mkv`. -/
def fsC4 : FS := fun p =>
  if p = ["d".data] then
    .ok [⟨"movie2.nfo".data, false⟩, ⟨"movie.mkv".data, false⟩]
  else .error "e".data

/-- **C4.** With off-level files `movie2.nfo` and `movie.mkv` at the
same level, the basename-match relation holds because `movie2` starts
with the video basename `movie`, so `movie2.nfo` is classified as a
Structure Warning and not as an Orphaned File. -/
theorem prefix_match_movie2 :
    (("movie".data).isPrefixOf ("movie2".data) = true) ∧
    Emission.warning (WarnKind.metadataAtWrongLevel "studio".data)
        ["d".data, "movie2.nfo".data] ∈
      checkDirectChildren fsC4 ["d".data] "studio".data ∧
    Emission.orphanedFile ["d".data, "movie2.nfo".data] ∉
      checkDirectChildren fsC4 ["d".data] "studio".data := by
  decide

/-! ### Claim C10: a video named only by its extension matches
everything -/

/-- **C10.** If a library-root or studio directory contains a video
file whose name consists only of its extension (such as `.mkv`), its
computed basename is empty, the empty string is a prefix of every
string, and so every non-video file at that level is classified as a
matched-metadata Structure Warning and never as an Orphaned File. -/
theorem empty_video_basename_matches_all (fs : FS) (d : Path)
    (lvl : Name) (entries : List DirEntry) (h : fs d = Except.ok entries)
    (v : DirEntry) (hv : v ∈ entries) (hvd : v.isDir = false)
    (hvn : v.name = ext v.name) (hvid : isVideoFile v.name = true) :
    (∀ q, Emission.orphanedFile q ∉ checkDirectChildren fs d lvl) ∧
    (∀ a ∈ entries, a.isDir = false → isVideoFile a.name = false →
      Emission.warning (WarnKind.metadataAtWrongLevel lvl)
          (d ++ [a.name]) ∈
        checkDirectChildren fs d lvl) := by
  have hbase : toLower (trimSuffix v.name (ext v.name)) = [] := by
    rw [← hvn, trimSuffix]
    simp [toLower]
  have hmatch : ∀ s : Name,
      ((videoBasenamesOf entries).any (fun vb => vb.isPrefixOf s)) = true := by
    intro s
    rw [videoBasenames_any_iff]
    exact ⟨v, hv, hvd, hvid, by rw [hbase]; simp⟩
  have hcd : checkDirectChildren fs d lvl =
      (fileNamesOf entries).map
        (classifyOffLevel (videoBasenamesOf entries) lvl d) := by
    simp [checkDirectChildren, h]
  constructor
  · intro q hq
    rw [hcd] at hq
    rcases List.mem_map.mp hq with ⟨nm, -, hnm⟩
    by_cases hvf : isVideoFile nm = true
    · rw [classifyOffLevel, if_pos hvf] at hnm
      cases hnm
    · rw [classifyOffLevel, if_neg hvf, if_pos (hmatch _)] at hnm
      cases hnm
  · intro a ha had hanv
    rw [hcd]
    refine List.mem_map.mpr ⟨a.name, ?_, ?_⟩
    · simp only [fileNamesOf, List.mem_map, List.mem_filter]
      exact ⟨a, ⟨ha, by simp [had]⟩, rfl⟩
    · rw [classifyOffLevel, if_neg (by simp [hanv]), if_pos (hmatch _)]

/-- A directory with a bare `.mkv` video and an unrelated text file. -/
def fsC10 : FS := fun p =>
  if p = ["d".data] then
    .ok [⟨".mkv".data, false⟩, ⟨"unrelated.txt".data, false⟩]
  else .error "e".data

/-- Witness for C10: with `.mkv` present, `unrelated.txt` is warned
about, not orphaned. -/
theorem empty_video_basename_matches_all_witness :
    (∀ q, Emission.orphanedFile q ∉
      checkDirectChildren fsC10 ["d".data] "library".data) ∧
    Emission.warning (WarnKind.metadataAtWrongLevel "library".data)
        ["d".data, "unrelated.txt".data] ∈
      checkDirectChildren fsC10 ["d".data] "library".data :=
  ⟨(empty_video_basename_matches_all fsC10 ["d".data] "library".data _
      rfl ⟨".mkv".data, false⟩ (by decide) rfl (by decide) (by decide)).1,
   (empty_video_basename_matches_all fsC10 ["d".data] "library".data _
      rfl ⟨".mkv".data, false⟩ (by decide) rfl (by decide) (by decide)).2
     ⟨"unrelated.txt".data, false⟩ (by decide) rfl (by decide)⟩

/-! ### Claim C2: off-level file classification -/

/-- The basename of a file as the spec's words define it: the filename
minus its trailing extension (`filepath.Ext`). The code instead trims
the LOWERCASED extension from a non-video filename
(`trimSuffix name (toLower (ext name))` in `classifyOffLevel`), which
differs whenever the extension contains an uppercase letter. -/
def specBasename (name : Name) : Name := trimSuffix name (ext name)

/-- A directory holding the off-level files `Movie.NFO` and
`Movie.N.mkv`. -/
def fsC2 : FS := fun p =>
  if p = ["d".data] then
    .ok [⟨"Movie.NFO".data, false⟩, ⟨"Movie.N.mkv".data, false⟩]
  else .error "e".data

/-- **C2 is false as stated.** `Movie.NFO` is a non-video file and no
video file at its level has a lowercased basename (filename minus
trailing extension) that is a prefix of `Movie.NFO`'s lowercased
basename `movie` — the only video basename is `movie.n` — so the claim
classifies it as an Orphaned File; the code instead emits a matched
metadata Structure Warning, because it fails to trim the uppercase
extension `.NFO` and tests the prefix against the whole lowercased
filename `movie.nfo`. -/
theorem offLevel_basename_counterexample :
    (isVideoFile "Movie.NFO".data = false) ∧
    (∀ v ∈ [DirEntry.mk "Movie.NFO".data false,
            DirEntry.mk "Movie.N.mkv".data false],
      isVideoFile v.name = true →
      (toLower (specBasename v.name)).isPrefixOf
          (toLower (specBasename "Movie.NFO".data)) = false) ∧
    Emission.orphanedFile ["d".data, "Movie.NFO".data] ∉
      checkDirectChildren fsC2 ["d".data] "studio".data ∧
    Emission.warning (WarnKind.metadataAtWrongLevel "studio".data)
        ["d".data, "Movie.NFO".data] ∈
      checkDirectChildren fsC2 ["d".data] "studio".data := by
  decide

/-- **C2 (amended).** For every file found directly inside a
library-root or studio directory: a video file yields a Structure
Warning and never an Orphaned File; a non-video file yields a matched
Structure Warning when the lowercased basename of some video file at
the same level is a prefix of the lowercase of its filename after
trimming its LOWERCASED extension (so an uppercase extension is not
trimmed), and otherwise is appended to Orphaned Files; directory
entries produce no classification from this check. -/
theorem offLevel_classification (fs : FS) (d : Path) (lvl : Name)
    (entries : List DirEntry) (h : fs d = Except.ok entries)
    (hnd : (entries.map DirEntry.name).Nodup)
    (a : DirEntry) (ha : a ∈ entries) :
    (a.isDir = false → isVideoFile a.name = true →
      Emission.warning (WarnKind.videoAtWrongLevel lvl) (d ++ [a.name]) ∈
        checkDirectChildren fs d lvl ∧
      Emission.orphanedFile (d ++ [a.name]) ∉
        checkDirectChildren fs d lvl) ∧
    (a.isDir = false → isVideoFile a.name = false →
      (∃ v ∈ entries, v.isDir = false ∧ isVideoFile v.name = true ∧
        (toLower (trimSuffix v.name (ext v.name))).isPrefixOf
          (toLower (trimSuffix a.name (toLower (ext a.name)))) = true) →
      Emission.warning (WarnKind.metadataAtWrongLevel lvl)
          (d ++ [a.name]) ∈ checkDirectChildren fs d lvl ∧
      Emission.orphanedFile (d ++ [a.name]) ∉
        checkDirectChildren fs d lvl) ∧
    (a.isDir = false → isVideoFile a.name = false →
      (¬ ∃ v ∈ entries, v.isDir = false ∧ isVideoFile v.name = true ∧
        (toLower (trimSuffix v.name (ext v.name))).isPrefixOf
          (toLower (trimSuffix a.name (toLower (ext a.name)))) = true) →
      Emission.orphanedFile (d ++ [a.name]) ∈
        checkDirectChildren fs d lvl ∧
      ∀ k, Emission.warning k (d ++ [a.name]) ∉
        checkDirectChildren fs d lvl) ∧
    (a.isDir = true →
      ∀ e ∈ checkDirectChildren fs d lvl,
        Emission.path e ≠ d ++ [a.name]) := by
  have hcd : checkDirectChildren fs d lvl =
      (fileNamesOf entries).map
        (classifyOffLevel (videoBasenamesOf entries) lvl d) := by
    simp [checkDirectChildren, h]
  have hmemname : a.isDir = false → a.name ∈ fileNamesOf entries := by
    intro had
    simp only [fileNamesOf, List.mem_map, List.mem_filter]
    exact ⟨a, ⟨ha, by simp [had]⟩, rfl⟩
  have hinv : ∀ e ∈ checkDirectChildren fs d lvl,
      Emission.path e = d ++ [a.name] →
      e = classifyOffLevel (videoBasenamesOf entries) lvl d a.name ∧
        a.name ∈ fileNamesOf entries := by
    intro e he hp
    rw [hcd] at he
    rcases List.mem_map.mp he with ⟨nm, hnm, rfl⟩
    rw [classifyOffLevel_path] at hp
    have hnm' : nm = a.name := by
      simpa using List.append_cancel_left hp
    subst hnm'
    exact ⟨rfl, hnm⟩
  refine ⟨?_, ?_, ?_, ?_⟩
  · intro had hvid
    have hcl : classifyOffLevel (videoBasenamesOf entries) lvl d a.name =
        Emission.warning (WarnKind.videoAtWrongLevel lvl)
          (d ++ [a.name]) := by
      rw [classifyOffLevel, if_pos hvid]
    constructor
    · rw [hcd]
      exact List.mem_map.mpr ⟨a.name, hmemname had, hcl⟩
    · intro habs
      have := (hinv _ habs rfl).1
      rw [hcl] at this
      cases this
  · intro had hnv hex
    have hany := (videoBasenames_any_iff entries
      (toLower (trimSuffix a.name (toLower (ext a.name))))).mpr hex
    have hcl : classifyOffLevel (videoBasenamesOf entries) lvl d a.name =
        Emission.warning (WarnKind.metadataAtWrongLevel lvl)
          (d ++ [a.name]) := by
      rw [classifyOffLevel, if_neg (by simp [hnv]), if_pos hany]
    constructor
    · rw [hcd]
      exact List.mem_map.mpr ⟨a.name, hmemname had, hcl⟩
    · intro habs
      have := (hinv _ habs rfl).1
      rw [hcl] at this
      cases this
  · intro had hnv hnex
    have hany : ((videoBasenamesOf entries).any
        (fun vb => vb.isPrefixOf
          (toLower (trimSuffix a.name (toLower (ext a.name)))))) ≠ true := by
      intro habs
      exact hnex ((videoBasenames_any_iff entries _).mp habs)
    have hcl : classifyOffLevel (videoBasenamesOf entries) lvl d a.name =
        Emission.orphanedFile (d ++ [a.name]) := by
      rw [classifyOffLevel, if_neg (by simp [hnv]), if_neg hany]
    constructor
    · rw [hcd]
      exact List.mem_map.mpr ⟨a.name, hmemname had, hcl⟩
    · intro k habs
      have := (hinv _ habs rfl).1
      rw [hcl] at this
      cases this
  · intro had e he hp
    have hmem := (hinv e he hp).2
    simp only [fileNamesOf, List.mem_map, List.mem_filter] at hmem
    rcases hmem with ⟨b, ⟨hb, hbd⟩, hbn⟩
    have hba : b = a := entry_eq_of_name_eq hnd hb ha hbn
    rw [hba, had] at hbd
    cases hbd

/-- Witness for the amended C2: `movie.mkv`, its matched metadata
`movie-poster.jpg`, and the unmatched `deleted.nfo`. -/
def fsC2W : FS := fun p =>
  if p = ["d".data] then
    .ok [⟨"movie.mkv".data, false⟩, ⟨"movie-poster.jpg".data, false⟩,
         ⟨"deleted.nfo".data, false⟩, ⟨"Sub".data, true⟩]
  else .error "e".data

/-- Witness for the amended C2 at concrete files. -/
theorem offLevel_classification_witness :
    (Emission.warning (WarnKind.videoAtWrongLevel "library".data)
        ["d".data, "movie.mkv".data] ∈
      checkDirectChildren fsC2W ["d".data] "library".data) ∧
    (Emission.warning (WarnKind.metadataAtWrongLevel "library".data)
        ["d".data, "movie-poster.jpg".data] ∈
      checkDirectChildren fsC2W ["d".data] "library".data) ∧
    (Emission.orphanedFile ["d".data, "deleted.nfo".data] ∈
      checkDirectChildren fsC2W ["d".data] "library".data) ∧
    (∀ e ∈ checkDirectChildren fsC2W ["d".data] "library".data,
      Emission.path e ≠ ["d".data, "Sub".data]) :=
  ⟨((offLevel_classification fsC2W ["d".data] "library".data _ rfl
      (by decide) ⟨"movie.mkv".data, false⟩ (by decide)).1 rfl
      (by decide)).1,
   ((offLevel_classification fsC2W ["d".data] "library".data _ rfl
      (by decide) ⟨"movie-poster.jpg".data, false⟩ (by decide)).2.1 rfl
      (by decide)
      ⟨⟨"movie.mkv".data, false⟩, by decide, rfl, by decide, by decide⟩).1,
   ((offLevel_classification fsC2W ["d".data] "library".data _ rfl
      (by decide) ⟨"deleted.nfo".data, false⟩ (by decide)).2.2.1 rfl
      (by decide) (by decide)).1,
   (offLevel_classification fsC2W ["d".data] "library".data _ rfl
      (by decide) ⟨"Sub".data, true⟩ (by decide)).2.2.2 rfl⟩

/-- With duplicate-free names, exactly one entry of a listing bears a
given member's name. -/
lemma countP_name_eq_one {entries : List DirEntry}
    (hnd : (entries.map DirEntry.name).Nodup) {a : DirEntry}
    (ha : a ∈ entries) :
    entries.countP (fun e => e.name == a.name) = 1 := by
  induction entries with
  | nil => cases ha
  | cons b l ih =>
    rw [List.map_cons, List.nodup_cons] at hnd
    rw [List.countP_cons]
    rcases List.mem_cons.mp ha with hab | hal
    · subst hab
      have h0 : l.countP (fun e => e.name == a.name) = 0 := by
        rw [List.countP_eq_zero]
        intro e he hbe
        exact hnd.1 (beq_iff_eq.mp hbe ▸ List.mem_map_of_mem DirEntry.name he)
      simp [h0]
    · have hbn : (b.name == a.name) = false := by
        rw [beq_eq_false_iff_ne]
        intro hbe
        exact hnd.1 (hbe ▸ List.mem_map_of_mem DirEntry.name hal)
      rw [ih hnd.2 hal, hbn]
      rfl

/-! ### Claim C5: unexpected subdirectories in title folders -/

lemma isMetadataSubdir_eq (n : Name) :
    isMetadataSubdir n = (".trickplay".data).isSuffixOf (toLower n) := by
  simp [isMetadataSubdir, metadataSubdirSuffixes]

/-- **C5.** In a title folder, each subdirectory whose lowercased name
does not end with `.trickplay` yields exactly one Structure Warning,
each subdirectory whose lowercased name does end with `.trickplay`
yields zero, and these warnings do not change the
empty/orphaned/valid classification (which is still determined only by
entry emptiness and video presence). -/
theorem titleFolder_subdir_warnings (fs : FS) (p : Path)
    (entries : List DirEntry) (h : fs p = Except.ok entries)
    (hnd : (entries.map DirEntry.name).Nodup)
    (a : DirEntry) (ha : a ∈ entries) (had : a.isDir = true) :
    ((".trickplay".data).isSuffixOf (toLower a.name) = false →
      (processTitleFolder fs p).count
        (Emission.warning WarnKind.unexpectedSubdir (p ++ [a.name])) = 1) ∧
    ((".trickplay".data).isSuffixOf (toLower a.name) = true →
      (processTitleFolder fs p).count
        (Emission.warning WarnKind.unexpectedSubdir (p ++ [a.name])) = 0) ∧
    (processTitleFolder fs p).count (Emission.orphanedFolder p) =
      (if hasVideoFile entries = false then 1 else 0) ∧
    (processTitleFolder fs p).count (Emission.emptyFolder p) = 0 := by
  have hne : entries ≠ [] := List.ne_nil_of_mem ha
  have hlen : ¬ entries.length = 0 := by
    simpa [List.length_eq_zero] using hne
  have hlen' : entries.length > 0 := Nat.pos_of_ne_zero hlen
  have hpt : processTitleFolder fs p =
      (entries.filter (fun e => e.isDir && !isMetadataSubdir e.name)).map
          (fun e => Emission.warning .unexpectedSubdir (p ++ [e.name]))
        ++ (if !hasVideoFile entries && decide (entries.length > 0) then
            [.orphanedFolder p] else []) := by
    simp [processTitleFolder, h, hlen]
  have hcountO : ∀ e : Emission,
      ((if !hasVideoFile entries && decide (entries.length > 0) then
          ([.orphanedFolder p] : List Emission) else [])).count e =
        (if e = Emission.orphanedFolder p then
          (if hasVideoFile entries = false then 1 else 0) else 0) := by
    intro e
    by_cases hv : hasVideoFile entries = true
    · simp [hv]
    · have hv' : hasVideoFile entries = false := by
        revert hv
        cases hasVideoFile entries <;> simp
      simp only [hv', Bool.not_false, Bool.true_and, decide_eq_true hlen',
        if_true]
      by_cases he : e = Emission.orphanedFolder p
      · subst he
        simp [List.count_cons]
      · rw [if_neg he]
        simp [List.count_cons, List.count_nil, he]
  refine ⟨?_, ?_, ?_, ?_⟩
  · intro htp
    have hmeta : isMetadataSubdir a.name = false := by
      rw [isMetadataSubdir_eq, htp]
    rw [hpt, List.count_append]
    rw [hcountO]
    rw [if_neg (by intro hc; cases hc)]
    have h1 : ((entries.filter
          (fun e => e.isDir && !isMetadataSubdir e.name)).map
          (fun e => Emission.warning .unexpectedSubdir (p ++ [e.name]))).count
          (Emission.warning WarnKind.unexpectedSubdir (p ++ [a.name])) =
        (entries.filter
          (fun e => e.isDir && !isMetadataSubdir e.name)).countP
          (fun e => e.name == a.name) := by
      show ((entries.filter _).map _).countP _ = _
      rw [List.countP_map]
      refine List.countP_congr ?_
      intro e _
      simp [Function.comp, beq_iff_eq]
    rw [h1, List.countP_filter]
    have h2 : entries.countP
          (fun e => (e.name == a.name) &&
            (e.isDir && !isMetadataSubdir e.name)) =
        entries.countP (fun e => e.name == a.name) := by
      refine List.countP_congr ?_
      intro e he
      simp only [Bool.and_eq_true, beq_iff_eq]
      constructor
      · exact fun hx => hx.1
      · intro hx
        refine ⟨hx, ?_⟩
        have hea : e = a := entry_eq_of_name_eq hnd he ha hx
        rw [hea, had, hmeta]
        simp
    rw [h2, Nat.add_zero]
    exact countP_name_eq_one hnd ha
  · intro htp
    have hmeta : isMetadataSubdir a.name = true := by
      rw [isMetadataSubdir_eq, htp]
    rw [hpt, List.count_append, hcountO]
    rw [if_neg (by intro hc; cases hc), Nat.add_zero]
    rw [List.count_eq_zero]
    intro hmem
    rcases List.mem_map.mp hmem with ⟨e, hef, heq⟩
    have hname : e.name = a.name := by
      have := congrArg Emission.path heq
      simpa using List.append_cancel_left this
    have hea : e = a := entry_eq_of_name_eq hnd (List.mem_of_mem_filter hef) ha hname
    have := (List.mem_filter.mp hef).2
    rw [hea, had, hmeta] at this
    simp at this
  · rw [hpt, List.count_append, hcountO, if_pos rfl,
      count_map_warning_eq_zero _ _ _ _ (by intro hc; cases hc),
      Nat.zero_add]
  · rw [hpt, List.count_append, hcountO,
      if_neg (by intro hc; cases hc),
      count_map_warning_eq_zero _ _ _ _ (by intro hc; cases hc)]

/-- A title folder holding a metadata file, a trickplay subdirectory
(uppercase) and an unexpected subdirectory. -/
def fsC5W : FS := fun p =>
  if p = ["t".data] then
    .ok [⟨"movie.nfo".data, false⟩, ⟨"MOVIE.TRICKPLAY".data, true⟩,
         ⟨"Extras".data, true⟩]
  else .error "e".data

/-- Witness for C5 at a concrete title folder. -/
theorem titleFolder_subdir_warnings_witness :
    (processTitleFolder fsC5W ["t".data]).count
        (Emission.warning WarnKind.unexpectedSubdir
          ["t".data, "Extras".data]) = 1 ∧
    (processTitleFolder fsC5W ["t".data]).count
        (Emission.warning WarnKind.unexpectedSubdir
          ["t".data, "MOVIE.TRICKPLAY".data]) = 0 :=
  ⟨(titleFolder_subdir_warnings fsC5W ["t".data] _ rfl (by decide)
      ⟨"Extras".data, true⟩ (by decide) rfl).1 (by decide),
   (titleFolder_subdir_warnings fsC5W ["t".data] _ rfl (by decide)
      ⟨"MOVIE.TRICKPLAY".data, true⟩ (by decide) rfl).2.1 (by decide)⟩

/-! ### Claim C8: zero workers -/

/-- **C8.** A scan with zero workers terminates and returns: an
outcome exists, and every zero-worker outcome is exactly the
library-level check followed by the empty-studio pass — no studio
folder is processed. (In the Go code the studio queue is a buffered
channel of capacity `len(studioDirs)`, so filling and closing it never
blocks, and `wg.Wait()` over zero workers returns at once; the
embedding models this termination by `scanOutcome` being inhabited at
`numWorkers = 0` with an empty worker segment.) -/
theorem zeroWorker_scan (fs : FS) (root : Path) :
    scanOutcome fs root 0 (libEmissions fs root ++ emptyPass fs root) ∧
    (∀ es, scanOutcome fs root 0 es →
      es = libEmissions fs root ++ emptyPass fs root) := by
  constructor
  · exact ⟨[], rfl, by simp⟩
  · rintro es ⟨mid, hmid, rfl⟩
    have hmid' : mid = [] := hmid
    subst hmid'
    simp

/-- A library root holding one empty studio and a stray root-level
file. -/
def fsScanW : FS := fun p =>
  if p = ["lib".data] then
    .ok [⟨"Studio1".data, true⟩, ⟨"readme.txt".data, false⟩]
  else if p = ["lib".data, "Studio1".data] then .ok []
  else .error "e".data

/-- Witness for C8: the zero-worker outcome at a concrete non-empty
root is the library check plus the empty-studio pass. -/
theorem zeroWorker_scan_witness :
    [Emission.orphanedFile ["lib".data, "readme.txt".data],
     Emission.emptyFolder ["lib".data, "Studio1".data]] =
      libEmissions fsScanW ["lib".data] ++ emptyPass fsScanW ["lib".data] :=
  (zeroWorker_scan fsScanW ["lib".data]).2 _ ⟨[], rfl, by decide⟩

/-! ### Claim C3: worker count does not affect the result -/

/-- **C3.** For a fixed directory tree, scans with worker counts 1, 4,
10, 20 and 50 yield identical contents and counts (as multisets, hence
as sets with counts) of all four result sequences: any two outcomes
agree on the count of every emission. -/
theorem scan_workerCount_invariant (fs : FS) (root : Path) (n m : Nat)
    (hn : n ∈ [1, 4, 10, 20, 50]) (hm : m ∈ [1, 4, 10, 20, 50])
    (es es' : List Emission) (h : scanOutcome fs root n es)
    (h' : scanOutcome fs root m es') :
    ∀ e : Emission, es.count e = es'.count e := by
  have hperm : ∀ k, k ∈ [1, 4, 10, 20, 50] → ∀ t, scanOutcome fs root k t →
      t.Perm (scanLibrary fs root) := by
    intro k hk t ht
    rcases ht with ⟨mid, hmid, rfl⟩
    cases k with
    | zero => simp at hk
    | succ k' =>
      exact ((List.Perm.refl (libEmissions fs root)).append hmid).append
        (List.Perm.refl (emptyPass fs root))
  have hp := (hperm n hn es h).trans (hperm m hm es' h').symm
  exact fun e => hp.count_eq e

/-- A concrete filesystem built from a finite association list of
directory listings; unlisted paths fail to read. -/
def fsOfList (base : List (Path × List DirEntry)) : FS := fun p =>
  match base.find? (fun pr => pr.1 == p) with
  | some pr => .ok pr.2
  | none => .error "e".data

/-- The spec's end-to-end scenario: `StudioA/Movie1` is valid,
`StudioA/Movie2` has metadata but no video, `StudioB` is empty. -/
def fsLibW : FS := fsOfList
  [(["lib".data],
      [⟨"StudioA".data, true⟩, ⟨"StudioB".data, true⟩]),
   (["lib".data, "StudioA".data],
      [⟨"Movie1".data, true⟩, ⟨"Movie2".data, true⟩]),
   (["lib".data, "StudioA".data, "Movie1".data],
      [⟨"movie.mkv".data, false⟩, ⟨"movie.nfo".data, false⟩]),
   (["lib".data, "StudioA".data, "Movie2".data],
      [⟨"poster.jpg".data, false⟩]),
   (["lib".data, "StudioB".data], [])]

/-- Witness for C3: a 1-worker outcome and a 4-worker outcome with a
reordered middle segment agree on the count of the orphaned folder. -/
theorem scan_workerCount_invariant_witness :
    (scanLibrary fsLibW ["lib".data]).count
        (Emission.orphanedFolder
          ["lib".data, "StudioA".data, "Movie2".data]) =
      (libEmissions fsLibW ["lib".data] ++
        (workerJoin fsLibW ["lib".data]).reverse ++
        emptyPass fsLibW ["lib".data]).count
        (Emission.orphanedFolder
          ["lib".data, "StudioA".data, "Movie2".data]) :=
  scan_workerCount_invariant fsLibW ["lib".data] 1 4 (by decide)
    (by decide) _ _
    ⟨workerJoin fsLibW ["lib".data], List.Perm.refl _, rfl⟩
    ⟨(workerJoin fsLibW ["lib".data]).reverse,
      List.reverse_perm _, rfl⟩
    (Emission.orphanedFolder ["lib".data, "StudioA".data, "Movie2".data])

/-! ### Well-formed filesystems and per-path classification -/

/-- A well-formed filesystem: a real directory never lists two entries
with the same name. -/
def goodFS (fs : FS) : Prop :=
  ∀ p entries, fs p = Except.ok entries → (entries.map DirEntry.name).Nodup

lemma goodFS_fsOfList (base : List (Path × List DirEntry))
    (hb : ∀ pr ∈ base, ((pr.2).map DirEntry.name).Nodup) :
    goodFS (fsOfList base) := by
  intro p entries h
  unfold fsOfList at h
  cases hf : base.find? (fun pr => pr.1 == p) with
  | none =>
    rw [hf] at h
    cases h
  | some pr =>
    rw [hf] at h
    injection h with h2
    rw [← h2]
    exact hb pr (List.mem_of_find?_eq_some hf)

/-- The entry of a listing bearing a given name, if any. -/
def entryNamed (entries : List DirEntry) (nm : Name) : Option DirEntry :=
  entries.find? (fun a => a.name == nm)

lemma entryNamed_eq_some {entries : List DirEntry}
    (hnd : (entries.map DirEntry.name).Nodup) {a : DirEntry}
    (ha : a ∈ entries) : entryNamed entries a.name = some a := by
  induction entries with
  | nil => cases ha
  | cons b l ih =>
    rw [List.map_cons, List.nodup_cons] at hnd
    rcases List.mem_cons.mp ha with hab | hal
    · subst hab
      exact List.find?_cons_of_pos l (by simp)
    · have hbn : (b.name == a.name) = false := by
        rw [beq_eq_false_iff_ne]
        intro hbe
        exact hnd.1 (hbe ▸ List.mem_map_of_mem DirEntry.name hal)
      rw [entryNamed, List.find?_cons_of_neg l (by simp [hbn])]
      exact ih hnd.2 hal

/-- The result sequence an off-level file is classified into,
independent of level label and directory. -/
def catOfOffLevel (videoBasenames : List Name) (name : Name) : Category :=
  if isVideoFile name then .structureWarnings
  else
    if videoBasenames.any
        (fun videoBase =>
          videoBase.isPrefixOf (toLower (trimSuffix name (toLower (ext name))))) then
      .structureWarnings
    else
      .orphanedFiles

lemma classifyOffLevel_cat_eq (vb : List Name) (lvl : Name) (d : Path)
    (nm : Name) :
    (classifyOffLevel vb lvl d nm).cat = catOfOffLevel vb nm := by
  unfold classifyOffLevel catOfOffLevel
  split
  · rfl
  · split <;> rfl

/-- The classification a studio path itself can receive: a warning if
unreadable, an empty folder if read as empty, nothing otherwise. -/
def studioCat (fs : FS) (sp : Path) : Option Category :=
  match fs sp with
  | .error _ => some .structureWarnings
  | .ok l => if l.length = 0 then some .emptyFolders else none

/-- The classification a title path itself can receive. -/
def titleCat (fs : FS) (tp : Path) : Option Category :=
  match fs tp with
  | .error _ => some .structureWarnings
  | .ok l =>
    if l.length = 0 then some .emptyFolders
    else if hasVideoFile l then none else some .orphanedFolders

/-- The unique result sequence a given path can be classified into by
the scan of `root`, derived from the filesystem alone: paths one level
below the root are off-level files or studio folders, two levels below
are studio-level files or title folders, three levels below are
subdirectories of title folders. -/
def classifyPath (fs : FS) (root p : Path) : Option Category :=
  if p.take root.length = root then
    match fs root with
    | .error _ => none
    | .ok rentries =>
      match p.drop root.length with
      | [x] =>
        match entryNamed rentries x with
        | none => none
        | some a =>
          if a.isDir then studioCat fs p
          else some (catOfOffLevel (videoBasenamesOf rentries) x)
      | [x, y] =>
        match entryNamed rentries x with
        | none => none
        | some a =>
          if a.isDir then
            match fs (root ++ [x]) with
            | .error _ => none
            | .ok sentries =>
              match entryNamed sentries y with
              | none => none
              | some b =>
                if b.isDir then titleCat fs p
                else some (catOfOffLevel (videoBasenamesOf sentries) y)
          else none
      | [x, y, z] =>
        match entryNamed rentries x with
        | none => none
        | some a =>
          if a.isDir then
            match fs (root ++ [x]) with
            | .error _ => none
            | .ok sentries =>
              match entryNamed sentries y with
              | none => none
              | some b =>
                if b.isDir then
                  match fs (root ++ [x, y]) with
                  | .error _ => none
                  | .ok tentries =>
                    match entryNamed tentries z with
                    | none => none
                    | some c =>
                      if c.isDir && !isMetadataSubdir c.name then
                        some .structureWarnings
                      else none
                else none
          else none
      | _ => none
  else none

/-! ### Membership inversion for the scan pieces -/

lemma mem_checkDirectChildren {fs : FS} {d : Path} {lvl : Name}
    {e : Emission} (he : e ∈ checkDirectChildren fs d lvl) :
    ∃ entries, fs d = Except.ok entries ∧ ∃ a ∈ entries,
      a.isDir = false ∧
      e = classifyOffLevel (videoBasenamesOf entries) lvl d a.name := by
  unfold checkDirectChildren at he
  cases hfd : fs d with
  | error err =>
    rw [hfd] at he
    cases he
  | ok entries =>
    rw [hfd] at he
    rcases List.mem_map.mp he with ⟨nm, hnm, rfl⟩
    simp only [fileNamesOf, List.mem_map, List.mem_filter] at hnm
    rcases hnm with ⟨a, ⟨ha, had⟩, rfl⟩
    exact ⟨entries, rfl, a, ha, by simpa using had, rfl⟩

lemma mem_processTitleFolder {fs : FS} {tp : Path} {e : Emission}
    (he : e ∈ processTitleFolder fs tp) :
    (∃ err, fs tp = Except.error err ∧
      e = Emission.warning (WarnKind.cannotReadTitleDir err) tp) ∨
    (fs tp = Except.ok [] ∧ e = Emission.emptyFolder tp) ∨
    (∃ entries, fs tp = Except.ok entries ∧ entries ≠ [] ∧
      ((∃ c ∈ entries, c.isDir = true ∧ isMetadataSubdir c.name = false ∧
        e = Emission.warning WarnKind.unexpectedSubdir (tp ++ [c.name])) ∨
       (hasVideoFile entries = false ∧
        e = Emission.orphanedFolder tp))) := by
  unfold processTitleFolder at he
  cases hfd : fs tp with
  | error err =>
    rw [hfd] at he
    rcases List.mem_singleton.mp he with rfl
    exact Or.inl ⟨err, rfl, rfl⟩
  | ok entries =>
    simp only [hfd] at he
    by_cases hlen : entries.length = 0
    · rw [if_pos hlen] at he
      rcases List.mem_singleton.mp he with rfl
      rw [List.length_eq_zero.mp hlen]
      exact Or.inr (Or.inl ⟨rfl, rfl⟩)
    · rw [if_neg hlen] at he
      have hne : entries ≠ [] := by
        intro hc
        exact hlen (by rw [hc]; rfl)
      refine Or.inr (Or.inr ⟨entries, rfl, hne, ?_⟩)
      rcases List.mem_append.mp he with hw | ho
      · rcases List.mem_map.mp hw with ⟨c, hcf, rfl⟩
        rcases List.mem_filter.mp hcf with ⟨hc, hcq⟩
        rw [Bool.and_eq_true] at hcq
        rcases hcq with ⟨hcd, hcm⟩
        exact Or.inl ⟨c, hc, hcd, by simpa using hcm, rfl⟩
      · by_cases hcond :
          (!hasVideoFile entries && decide (entries.length > 0)) = true
        · rw [if_pos hcond] at ho
          rcases List.mem_singleton.mp ho with rfl
          rw [Bool.and_eq_true] at hcond
          rcases hcond with ⟨hnv, -⟩
          exact Or.inr ⟨by simpa using hnv, rfl⟩
        · rw [if_neg hcond] at ho
          cases ho

lemma mem_processStudio {fs : FS} {sp : Path} {e : Emission}
    (he : e ∈ processStudio fs sp) :
    e ∈ checkDirectChildren fs sp "studio".data ∨
    (∃ err, fs sp = Except.error err ∧
      e = Emission.warning (WarnKind.cannotReadStudioDir err) sp) ∨
    (∃ entries, fs sp = Except.ok entries ∧ ∃ b ∈ entries,
      b.isDir = true ∧ e ∈ processTitleFolder fs (sp ++ [b.name])) := by
  unfold processStudio at he
  rcases List.mem_append.mp he with hc | ht
  · exact Or.inl hc
  · cases hfd : fs sp with
    | error err =>
      rw [hfd] at ht
      rcases List.mem_singleton.mp ht with rfl
      exact Or.inr (Or.inl ⟨err, rfl, rfl⟩)
    | ok entries =>
      rw [hfd] at ht
      rcases List.mem_flatMap.mp ht with ⟨b, hbf, hbe⟩
      rcases List.mem_filter.mp hbf with ⟨hb, hbd⟩
      exact Or.inr (Or.inr ⟨entries, rfl, b, hb, hbd, hbe⟩)

lemma mem_studioDirs {fs : FS} {root s : Path}
    (hs : s ∈ studioDirs fs root) :
    ∃ entries, fs root = Except.ok entries ∧ ∃ a ∈ entries,
      a.isDir = true ∧ s = root ++ [a.name] := by
  unfold studioDirs at hs
  cases hfd : fs root with
  | error err =>
    rw [hfd] at hs
    cases hs
  | ok entries =>
    rw [hfd] at hs
    rcases List.mem_map.mp hs with ⟨a, haf, rfl⟩
    rcases List.mem_filter.mp haf with ⟨ha, had⟩
    exact ⟨entries, rfl, a, ha, had, rfl⟩

lemma mem_emptyPass {fs : FS} {root : Path} {e : Emission}
    (he : e ∈ emptyPass fs root) :
    ∃ s ∈ studioDirs fs root, fs s = Except.ok [] ∧
      e = Emission.emptyFolder s := by
  unfold emptyPass at he
  rcases List.mem_flatMap.mp he with ⟨s, hs, hse⟩
  by_cases hde : isDirEmpty fs s = true
  · rw [if_pos hde] at hse
    rcases List.mem_singleton.mp hse with rfl
    unfold isDirEmpty at hde
    cases hfd : fs s with
    | error err =>
      rw [hfd] at hde
      cases hde
    | ok l =>
      rw [hfd] at hde
      have : l = [] := List.length_eq_zero.mp (by simpa using hde)
      subst this
      exact ⟨s, hs, hfd, rfl⟩
  · rw [if_neg hde] at hse
    cases hse

lemma append_two (r : Path) (x y : Name) :
    (r ++ [x]) ++ [y] = r ++ [x, y] := by simp

lemma append_three (r : Path) (x y z : Name) :
    ((r ++ [x]) ++ [y]) ++ [z] = r ++ [x, y, z] := by simp

/-- Every emission a scan can produce, characterized by where in the
three-level hierarchy it originates. -/
def EmissionShape (fs : FS) (root : Path) (e : Emission) : Prop :=
  ∃ rentries, fs root = Except.ok rentries ∧
    ((∃ a ∈ rentries, a.isDir = false ∧
      e = classifyOffLevel (videoBasenamesOf rentries)
            "library".data root a.name) ∨
     (∃ a ∈ rentries, a.isDir = true ∧
      ((∃ err, fs (root ++ [a.name]) = Except.error err ∧
        e = Emission.warning (WarnKind.cannotReadStudioDir err)
              (root ++ [a.name])) ∨
       (fs (root ++ [a.name]) = Except.ok [] ∧
        e = Emission.emptyFolder (root ++ [a.name])) ∨
       (∃ sentries, fs (root ++ [a.name]) = Except.ok sentries ∧
        ((∃ b ∈ sentries, b.isDir = false ∧
          e = classifyOffLevel (videoBasenamesOf sentries)
                "studio".data (root ++ [a.name]) b.name) ∨
         (∃ b ∈ sentries, b.isDir = true ∧
          ((∃ err, fs (root ++ [a.name, b.name]) = Except.error err ∧
            e = Emission.warning (WarnKind.cannotReadTitleDir err)
                  (root ++ [a.name, b.name])) ∨
           (fs (root ++ [a.name, b.name]) = Except.ok [] ∧
            e = Emission.emptyFolder (root ++ [a.name, b.name])) ∨
           (∃ tentries,
            fs (root ++ [a.name, b.name]) = Except.ok tentries ∧
            tentries ≠ [] ∧
            ((hasVideoFile tentries = false ∧
              e = Emission.orphanedFolder (root ++ [a.name, b.name])) ∨
             (∃ c ∈ tentries, c.isDir = true ∧
              isMetadataSubdir c.name = false ∧
              e = Emission.warning WarnKind.unexpectedSubdir
                    (root ++ [a.name, b.name, c.name])))))))))))

lemma shape_of_mem_scanLibrary {fs : FS} {root : Path} {e : Emission}
    (he : e ∈ scanLibrary fs root) : EmissionShape fs root e := by
  unfold scanLibrary at he
  rcases List.mem_append.mp he with he1 | hemp
  · rcases List.mem_append.mp he1 with hlib | hjoin
    · rcases mem_checkDirectChildren hlib with ⟨rentries, hroot, a, ha, had, rfl⟩
      exact ⟨rentries, hroot, Or.inl ⟨a, ha, had, rfl⟩⟩
    · rcases List.mem_flatMap.mp hjoin with ⟨s, hs, hse⟩
      rcases mem_studioDirs hs with ⟨rentries, hroot, a, ha, had, rfl⟩
      rcases mem_processStudio hse with hc | ⟨err, herr, rfl⟩ |
        ⟨sentries, hok, b, hb, hbd, hbt⟩
      · rcases mem_checkDirectChildren hc with ⟨sentries, hok, b, hb, hbd, rfl⟩
        exact ⟨rentries, hroot, Or.inr ⟨a, ha, had, Or.inr (Or.inr
          ⟨sentries, hok, Or.inl ⟨b, hb, hbd, rfl⟩⟩)⟩⟩
      · exact ⟨rentries, hroot, Or.inr ⟨a, ha, had, Or.inl ⟨err, herr, rfl⟩⟩⟩
      · rcases mem_processTitleFolder hbt with ⟨err, herr, rfl⟩ |
          ⟨hok2, rfl⟩ | ⟨tentries, hok2, hne, hsub⟩
        · rw [append_two] at herr
          exact ⟨rentries, hroot, Or.inr ⟨a, ha, had, Or.inr (Or.inr
            ⟨sentries, hok, Or.inr ⟨b, hb, hbd, Or.inl
              ⟨err, herr, by rw [append_two]⟩⟩⟩)⟩⟩
        · rw [append_two] at hok2
          exact ⟨rentries, hroot, Or.inr ⟨a, ha, had, Or.inr (Or.inr
            ⟨sentries, hok, Or.inr ⟨b, hb, hbd, Or.inr (Or.inl
              ⟨hok2, by rw [append_two]⟩)⟩⟩)⟩⟩
        · rw [append_two] at hok2
          rcases hsub with ⟨c, hc, hcd, hcm, rfl⟩ | ⟨hnv, rfl⟩
          · exact ⟨rentries, hroot, Or.inr ⟨a, ha, had, Or.inr (Or.inr
              ⟨sentries, hok, Or.inr ⟨b, hb, hbd, Or.inr (Or.inr
                ⟨tentries, hok2, hne, Or.inr
                  ⟨c, hc, hcd, hcm, by rw [append_three]⟩⟩)⟩⟩)⟩⟩
          · exact ⟨rentries, hroot, Or.inr ⟨a, ha, had, Or.inr (Or.inr
              ⟨sentries, hok, Or.inr ⟨b, hb, hbd, Or.inr (Or.inr
                ⟨tentries, hok2, hne, Or.inl
                  ⟨hnv, by rw [append_two]⟩⟩)⟩⟩)⟩⟩
  · rcases mem_emptyPass hemp with ⟨s, hs, hsok, rfl⟩
    rcases mem_studioDirs hs with ⟨rentries, hroot, a, ha, had, rfl⟩
    exact ⟨rentries, hroot, Or.inr ⟨a, ha, had, Or.inr (Or.inl ⟨hsok, rfl⟩)⟩⟩

lemma mem_of_scanOutcome {fs : FS} {root : Path} {n : Nat}
    {es : List Emission} (h : scanOutcome fs root n es) :
    ∀ e ∈ es, e ∈ scanLibrary fs root := by
  rcases h with ⟨mid, hmid, rfl⟩
  intro e he
  unfold scanLibrary
  rcases List.mem_append.mp he with he1 | he2
  · rcases List.mem_append.mp he1 with ha | hb
    · exact List.mem_append.mpr (Or.inl (List.mem_append.mpr (Or.inl ha)))
    · cases n with
      | zero =>
        have hm : mid = [] := hmid
        subst hm
        cases hb
      | succ k =>
        have hp : mid.Perm (workerJoin fs root) := hmid
        exact List.mem_append.mpr (Or.inl (List.mem_append.mpr
          (Or.inr (hp.subset hb))))
  · exact List.mem_append.mpr (Or.inr he2)

/-- On a well-formed filesystem, every emission the scan can produce
is classified at its path exactly as `classifyPath` dictates; in
particular the category of an emission is a function of its path. -/
lemma shape_classifyPath {fs : FS} {root : Path} {e : Emission}
    (hfs : goodFS fs) (h : EmissionShape fs root e) :
    classifyPath fs root (Emission.path e) = some (Emission.cat e) := by
  rcases h with ⟨rentries, hroot, h⟩
  have hndr := hfs root rentries hroot
  rcases h with ⟨a, ha, had, rfl⟩ | ⟨a, ha, had, h⟩
  · rw [classifyOffLevel_path, classifyOffLevel_cat_eq]
    unfold classifyPath
    rw [if_pos (List.take_left root [a.name])]
    simp only [hroot, List.drop_left]
    rw [entryNamed_eq_some hndr ha]
    simp [had]
  · rcases h with ⟨err, herr, rfl⟩ | ⟨hsok, rfl⟩ | ⟨sentries, hok, h⟩
    · show classifyPath fs root (root ++ [a.name]) =
        some Category.structureWarnings
      unfold classifyPath
      rw [if_pos (List.take_left root [a.name])]
      simp only [hroot, List.drop_left]
      rw [entryNamed_eq_some hndr ha]
      simp [had, studioCat, herr]
    · show classifyPath fs root (root ++ [a.name]) =
        some Category.emptyFolders
      unfold classifyPath
      rw [if_pos (List.take_left root [a.name])]
      simp only [hroot, List.drop_left]
      rw [entryNamed_eq_some hndr ha]
      simp [had, studioCat, hsok]
    · have hnds := hfs (root ++ [a.name]) sentries hok
      rcases h with ⟨b, hb, hbd, rfl⟩ | ⟨b, hb, hbd, h⟩
      · rw [classifyOffLevel_path, classifyOffLevel_cat_eq, append_two]
        unfold classifyPath
        rw [if_pos (List.take_left root [a.name, b.name])]
        simp only [hroot, List.drop_left]
        rw [entryNamed_eq_some hndr ha]
        simp only [had, if_true, hok]
        rw [entryNamed_eq_some hnds hb]
        simp [hbd]
      · rcases h with ⟨err, herr, rfl⟩ | ⟨htok, rfl⟩ | ⟨tentries, htok, hne, h⟩
        · show classifyPath fs root (root ++ [a.name, b.name]) =
            some Category.structureWarnings
          unfold classifyPath
          rw [if_pos (List.take_left root [a.name, b.name])]
          simp only [hroot, List.drop_left]
          rw [entryNamed_eq_some hndr ha]
          simp only [had, if_true, hok]
          rw [entryNamed_eq_some hnds hb]
          simp [hbd, titleCat, herr]
        · show classifyPath fs root (root ++ [a.name, b.name]) =
            some Category.emptyFolders
          unfold classifyPath
          rw [if_pos (List.take_left root [a.name, b.name])]
          simp only [hroot, List.drop_left]
          rw [entryNamed_eq_some hndr ha]
          simp only [had, if_true, hok]
          rw [entryNamed_eq_some hnds hb]
          simp [hbd, titleCat, htok]
        · have hlen : ¬ tentries.length = 0 := by
            simpa [List.length_eq_zero] using hne
          have hndt := hfs (root ++ [a.name, b.name]) tentries htok
          rcases h with ⟨hnv, rfl⟩ | ⟨c, hc, hcd, hcm, rfl⟩
          · show classifyPath fs root (root ++ [a.name, b.name]) =
              some Category.orphanedFolders
            unfold classifyPath
            rw [if_pos (List.take_left root [a.name, b.name])]
            simp only [hroot, List.drop_left]
            rw [entryNamed_eq_some hndr ha]
            simp only [had, if_true, hok]
            rw [entryNamed_eq_some hnds hb]
            simp [hbd, titleCat, htok, hlen, hnv]
          · show classifyPath fs root (root ++ [a.name, b.name, c.name]) =
              some Category.structureWarnings
            unfold classifyPath
            rw [if_pos (List.take_left root [a.name, b.name, c.name])]
            simp only [hroot, List.drop_left]
            rw [entryNamed_eq_some hndr ha]
            simp only [had, if_true, hok]
            rw [entryNamed_eq_some hnds hb]
            simp only [hbd, if_true, htok]
            rw [entryNamed_eq_some hndt hc]
            simp [hcd, hcm]

lemma classifyOffLevel_ne_orphanedFolder (vb : List Name) (lvl : Name)
    (d : Path) (nm : Name) (q : Path) :
    classifyOffLevel vb lvl d nm ≠ Emission.orphanedFolder q := by
  unfold classifyOffLevel
  split
  · intro hc
    cases hc
  · split
    · intro hc
      cases hc
    · intro hc
      cases hc

lemma shape_path_length {fs : FS} {root : Path} {e : Emission}
    (h : EmissionShape fs root e) :
    (Emission.path e).length = root.length + 1 ∨
    (Emission.path e).length = root.length + 2 ∨
    ((Emission.path e).length = root.length + 3 ∧
      Emission.cat e = Category.structureWarnings) := by
  rcases h with ⟨rentries, hroot, h⟩
  rcases h with ⟨a, ha, had, rfl⟩ | ⟨a, ha, had, h⟩
  · exact Or.inl (by rw [classifyOffLevel_path]; simp)
  · rcases h with ⟨err, herr, rfl⟩ | ⟨hsok, rfl⟩ | ⟨sentries, hok, h⟩
    · exact Or.inl (by simp [Emission.path])
    · exact Or.inl (by simp [Emission.path])
    · rcases h with ⟨b, hb, hbd, rfl⟩ | ⟨b, hb, hbd, h⟩
      · exact Or.inr (Or.inl
          (by rw [classifyOffLevel_path, append_two]; simp))
      · rcases h with ⟨err, herr, rfl⟩ | ⟨htok, rfl⟩ |
          ⟨tentries, htok, hne, h⟩
        · exact Or.inr (Or.inl (by simp [Emission.path]))
        · exact Or.inr (Or.inl (by simp [Emission.path]))
        · rcases h with ⟨hnv, rfl⟩ | ⟨c, hc, hcd, hcm, rfl⟩
          · exact Or.inr (Or.inl (by simp [Emission.path]))
          · exact Or.inr (Or.inr ⟨by simp [Emission.path], rfl⟩)

lemma orphanedFolder_shape_length {fs : FS} {root q : Path}
    (h : EmissionShape fs root (Emission.orphanedFolder q)) :
    q.length = root.length + 2 := by
  rcases h with ⟨rentries, hroot, h⟩
  rcases h with ⟨a, ha, had, heq⟩ | ⟨a, ha, had, h⟩
  · exact absurd heq.symm (classifyOffLevel_ne_orphanedFolder _ _ _ _ _)
  · rcases h with ⟨err, herr, heq⟩ | ⟨hsok, heq⟩ | ⟨sentries, hok, h⟩
    · cases heq
    · cases heq
    · rcases h with ⟨b, hb, hbd, heq⟩ | ⟨b, hb, hbd, h⟩
      · exact absurd heq.symm (classifyOffLevel_ne_orphanedFolder _ _ _ _ _)
      · rcases h with ⟨err, herr, heq⟩ | ⟨htok, heq⟩ |
          ⟨tentries, htok, hne, h⟩
        · cases heq
        · cases heq
        · rcases h with ⟨hnv, heq⟩ | ⟨c, hc, hcd, hcm, heq⟩
          · injection heq with h2
            rw [h2]
            simp
          · cases heq

/-! ### Claim C6: mutual exclusivity of the four sequences -/

/-- A library with a single orphaned title folder containing an
unexpected subdirectory. -/
def fsC6X : FS := fsOfList
  [(["lib".data], [⟨"S".data, true⟩]),
   (["lib".data, "S".data], [⟨"T".data, true⟩]),
   (["lib".data, "S".data, "T".data], [⟨"Extras".data, true⟩])]

/-- **C6 is false as stated.** The claim says the contents of an
orphaned folder are not separately itemized in ANY sequence; but the
title folder `lib/S/T` is emitted as an Orphaned Folder while its
unexpected subdirectory `lib/S/T/Extras` — a path strictly inside it —
is itemized in the Structure Warnings sequence (`processTitleFolder`
emits subdirectory warnings before the orphan check). -/
theorem scan_subsumption_counterexample :
    ¬ (∀ e ∈ scanLibrary fsC6X ["lib".data], ∀ q : Path,
        Emission.orphanedFolder q ∈ scanLibrary fsC6X ["lib".data] →
        q.length < (Emission.path e).length →
        q.isPrefixOf (Emission.path e) = false) :=
  fun h => absurd
    (h (Emission.warning WarnKind.unexpectedSubdir
          ["lib".data, "S".data, "T".data, "Extras".data]) (by decide)
       ["lib".data, "S".data, "T".data] (by decide) (by decide))
    (by decide)

/-- **C6 (amended).** In every scan outcome over a well-formed
filesystem, a path appears in at most one of the four sequences (two
emissions with the same path land in the same category); and every
path strictly inside an orphaned folder that appears at all appears
only as a Structure Warning (the unexpected-subdirectory diagnostics),
never in the Orphaned Folders, Orphaned Files or Empty Folders
sequences. -/
theorem scan_category_exclusive (fs : FS) (root : Path) (n : Nat)
    (es : List Emission) (hfs : goodFS fs) (h : scanOutcome fs root n es) :
    (∀ e₁ ∈ es, ∀ e₂ ∈ es, Emission.path e₁ = Emission.path e₂ →
      Emission.cat e₁ = Emission.cat e₂) ∧
    (∀ q, Emission.orphanedFolder q ∈ es → ∀ e ∈ es,
      q.length < (Emission.path e).length →
      q.isPrefixOf (Emission.path e) = true →
      Emission.cat e = Category.structureWarnings) := by
  have hmem := mem_of_scanOutcome h
  constructor
  · intro e₁ he₁ e₂ he₂ hp
    have h1 := shape_classifyPath hfs (shape_of_mem_scanLibrary (hmem e₁ he₁))
    have h2 := shape_classifyPath hfs (shape_of_mem_scanLibrary (hmem e₂ he₂))
    rw [hp] at h1
    exact Option.some.inj (h1.symm.trans h2)
  · intro q hq e he hlen hpre
    have hq2 := orphanedFolder_shape_length
      (shape_of_mem_scanLibrary (hmem _ hq))
    rcases shape_path_length (shape_of_mem_scanLibrary (hmem e he)) with
      h1 | h2 | ⟨h3, hcat⟩
    · exact absurd hlen (by omega)
    · exact absurd hlen (by omega)
    · exact hcat

/-- Witness for the amended C6: in the concrete library `fsC6X`, the
emission strictly inside the orphaned folder is a structure warning. -/
theorem scan_category_exclusive_witness :
    Emission.cat (Emission.warning WarnKind.unexpectedSubdir
        ["lib".data, "S".data, "T".data, "Extras".data]) =
      Category.structureWarnings :=
  (scan_category_exclusive fsC6X ["lib".data] 1 _
      (goodFS_fsOfList _ (by decide))
      ⟨workerJoin fsC6X ["lib".data], List.Perm.refl _, rfl⟩).2
    ["lib".data, "S".data, "T".data] (by decide) _ (by decide)
    (by decide) (by decide)

/-! ### Claim C7: the empty-studio second pass -/

/-- **C7.** In every scan outcome: a studio folder receives an Empty
Folder entry exactly when reading it succeeds with zero entries (a
read failure never counts as empty); and the empty-studio entries form
the final segment of the outcome, strictly after the whole worker
segment — the structural image of the `wg.Wait()` barrier before the
second pass. -/
theorem emptyStudio_second_pass (fs : FS) (root : Path) (n : Nat)
    (es : List Emission) (hfs : goodFS fs) (h : scanOutcome fs root n es) :
    (∀ s ∈ studioDirs fs root,
      (Emission.emptyFolder s ∈ es ↔ fs s = Except.ok [])) ∧
    (∃ workPart, es = workPart ++ emptyPass fs root ∧
      ∀ e ∈ emptyPass fs root, ∃ s ∈ studioDirs fs root,
        fs s = Except.ok [] ∧ e = Emission.emptyFolder s) := by
  obtain ⟨mid, hmid, rfl⟩ := h
  constructor
  · intro s hs
    constructor
    · intro hin
      have hmem : Emission.emptyFolder s ∈ scanLibrary fs root :=
        mem_of_scanOutcome ⟨mid, hmid, rfl⟩ _ hin
      have hcp := shape_classifyPath hfs (shape_of_mem_scanLibrary hmem)
      rcases mem_studioDirs hs with ⟨rentries, hroot, a, ha, had, rfl⟩
      have hndr := hfs root rentries hroot
      simp only [Emission.path, Emission.cat] at hcp
      unfold classifyPath at hcp
      rw [if_pos (List.take_left root [a.name])] at hcp
      simp only [hroot, List.drop_left] at hcp
      rw [entryNamed_eq_some hndr ha] at hcp
      simp only [had, if_true, studioCat] at hcp
      cases hsfd : fs (root ++ [a.name]) with
      | error err =>
        rw [hsfd] at hcp
        simp at hcp
      | ok l =>
        rw [hsfd] at hcp
        have hcp2 : (if l.length = 0 then some Category.emptyFolders
            else none) = some Category.emptyFolders := hcp
        by_cases hl : l.length = 0
        · rw [List.length_eq_zero.mp hl]
        · rw [if_neg hl] at hcp2
          cases hcp2
    · intro hsok
      have hmem : Emission.emptyFolder s ∈ emptyPass fs root := by
        unfold emptyPass
        refine List.mem_flatMap.mpr ⟨s, hs, ?_⟩
        simp [isDirEmpty, hsok]
      exact List.mem_append.mpr (Or.inr hmem)
  · refine ⟨libEmissions fs root ++ mid, rfl, ?_⟩
    intro e he
    rcases mem_emptyPass he with ⟨s, hs, hsok, rfl⟩
    exact ⟨s, hs, hsok, rfl⟩

/-- Witness for C7: in the concrete library, the empty `StudioB` is
emitted as an Empty Folder. -/
theorem emptyStudio_second_pass_witness :
    Emission.emptyFolder ["lib".data, "StudioB".data] ∈
      scanLibrary fsLibW ["lib".data] :=
  ((emptyStudio_second_pass fsLibW ["lib".data] 1 _
      (goodFS_fsOfList _ (by decide))
      ⟨workerJoin fsLibW ["lib".data], List.Perm.refl _, rfl⟩).1
    ["lib".data, "StudioB".data] (by decide)).mpr rfl

end VideoCleanup
